import Mathlib

/-!
Formal model of `GrpcStream`
(`Firestore/core/src/firebase/firestore/remote/grpc_stream.h`).

The header declares the public surface and the state machine; the method
bodies live in `grpc_stream.cc`, which is not part of the available
sources.  Following the specification's own design note ("recast as
explicit state-machine transition functions ... each transition taking the
current state and an event and producing a new state plus a list of side
effects"), the stream is embedded as a pure transition function
`step : StreamState → Event → StreamState × List Effect`.  Definitions
whose C++ bodies are visible in the header (the `State` enumeration,
`IsFinished`) are translated from the source; the behaviour of the other
methods is modelled from the specification, as marked in the individual
doc comments.
-/

namespace GrpcStream

/-- Raw message bytes (`grpc::ByteBuffer`); payloads are opaque byte
buffers whose encoding is a caller concern. -/
abbrev ByteBuffer := List Nat

/-- Terminal status reported by the transport (`grpc::Status`): an error
code plus a message, translatable to the observer's status type. -/
structure GrpcStatus where
  errorCode : Int
  errorMessage : String
deriving DecidableEq

/-- Response metadata (`GrpcStream::MetadataT`), a mapping of header name
to value, modelled as an association list. -/
abbrev MetadataT := List (String × String)

/-- Stream states, translated from the `GrpcStream::State` enumeration in
the header.  The order of stream states is linear: a stream can never
transition to an earlier state, only to a later one; intermediate states
can be skipped. -/
inductive State
  | NotStarted
  | Starting
  | Open
  | Finishing
  | Finished
deriving DecidableEq

/-- Position of a state in the linear order
`NotStarted < Starting < Open < Finishing < Finished`. -/
def stateIdx : State → Nat
  | State.NotStarted => 0
  | State.Starting => 1
  | State.Open => 2
  | State.Finishing => 3
  | State.Finished => 4

/-- The mutable fields of a `GrpcStream`: the state enumeration `state_`,
the construction-time observer generation snapshot `generation_`, the
write buffer's queue of not-yet-issued messages and its in-flight flag
(`buffered_writer_`), the sanity flag `has_pending_read_`, the outstanding
start/finish operation flags, whether a caller-initiated finish has
happened, whether the stream ever reached `Open`, and the response
metadata populated at open. -/
structure StreamState where
  state : State
  generation : Int
  queue : List ByteBuffer
  writeInFlight : Bool
  hasPendingRead : Bool
  startPending : Bool
  finishOpPending : Bool
  finishCalled : Bool
  opened : Bool
  responseHeaders : MetadataT
deriving DecidableEq

/-- Side effects a transition may perform: observer notifications and
operations issued against the transport. -/
inductive Effect
  | notifyStart
  | notifyRead (msg : ByteBuffer)
  | notifyError (status : GrpcStatus)
  | issueStart
  | issueRead
  | issueWrite (msg : ByteBuffer)
  | issueFinish
deriving DecidableEq

/-- Whether an effect is a call into one of the observer's methods
(`OnStreamStart`, `OnStreamRead`, `OnStreamError`). -/
def Effect.isObserverCall : Effect → Bool
  | Effect.notifyStart => true
  | Effect.notifyRead _ => true
  | Effect.notifyError _ => true
  | _ => false

/-- Events driving the stream: the public methods and the completion
callbacks.  Completions carry the observer's current generation at the
time the completion is processed; `onRead` additionally carries the
observer's generation after the `OnStreamRead` notification returns,
because the notification may synchronously change it. -/
inductive Event
  | callStart
  | callWrite (msg : ByteBuffer)
  | callFinish
  | callWriteAndFinish (msg : ByteBuffer)
  | callIsFinished
  | callGetResponseHeaders
  | onStart (obsGen : Int) (headers : MetadataT)
  | onRead (msg : ByteBuffer) (obsGen : Int) (obsGenAfterNotify : Int)
  | onWrite (obsGen : Int)
  | onOperationFailed (obsGen : Int)
  | onFinishedByServer (status : GrpcStatus) (obsGen : Int)
  | onFinishedByClient
deriving DecidableEq

/-- Translated from the header: `IsFinished` returns whether the state
equals `Finished` (`return state_ == State::Finished;`). -/
def IsFinished (s : StreamState) : Bool := s.state == State.Finished

/-- Modelled from the spec (body of `GetResponseHeaders` is in the missing
`grpc_stream.cc`): returns the response metadata, readable at any time. -/
def GetResponseHeaders (s : StreamState) : MetadataT := s.responseHeaders

/-- Modelled from the spec (body of `SameGeneration` is in the missing
`grpc_stream.cc`): whether the observer's current generation equals the
stream's construction-time snapshot. -/
def SameGeneration (s : StreamState) (observerGen : Int) : Bool :=
  s.generation == observerGen

/-- State of a freshly constructed stream: `NotStarted`, the observer's
generation snapshotted, nothing buffered, no operation outstanding, no
headers. -/
def initialState (gen : Int) : StreamState :=
  { state := State.NotStarted
    generation := gen
    queue := []
    writeInFlight := false
    hasPendingRead := false
    startPending := false
    finishOpPending := false
    finishCalled := false
    opened := false
    responseHeaders := [] }

/-- Number of operations issued against the transport but not yet seen
complete (start, read, write, finish). -/
def outstandingOps (s : StreamState) : Nat :=
  (if s.startPending then 1 else 0) + (if s.hasPendingRead then 1 else 0) +
    (if s.writeInFlight then 1 else 0) + (if s.finishOpPending then 1 else 0)

/-- Modelled from the spec (body of `FastFinishOperationsBlocking` is in
the missing `grpc_stream.cc`): synchronously drives every outstanding
operation to a final, possibly forced, completion. -/
def FastFinishOperationsBlocking (s : StreamState) : StreamState :=
  { s with
    hasPendingRead := false
    writeInFlight := false
    startPending := false
    finishOpPending := false }

/-- Modelled from the spec (body of `Finish` is in the missing
`grpc_stream.cc`): callable at any state, must not be called twice;
synchronously drives every outstanding operation to completion, discards
buffered writes, and transitions to `Finished`.  Produces no observer
notification.  A second call (precondition violation) is modelled as a
no-op. -/
def finish (s : StreamState) : StreamState × List Effect :=
  if s.finishCalled then (s, [])
  else
    ({ FastFinishOperationsBlocking s with
        state := State.Finished
        finishCalled := true
        queue := [] },
      [])

/-- Modelled from the spec: the write buffer issues the oldest queued
message as a write operation when no write is currently in flight
(`BufferedWriter` guarantees a single in-flight write, FIFO). -/
def tryIssueNextWrite (s : StreamState) : StreamState × List Effect :=
  match s.queue with
  | [] => (s, [])
  | m :: rest =>
    if s.writeInFlight then (s, [])
    else ({ s with queue := rest, writeInFlight := true }, [Effect.issueWrite m])

/-- Modelled from the spec (body of `Write` is in the missing
`grpc_stream.cc`): enqueue the message; if the stream is open the buffer
immediately issues the next write unless one is already in flight;
messages enqueued before the stream opens wait until open. -/
def write (s : StreamState) (m : ByteBuffer) : StreamState × List Effect :=
  let s1 := { s with queue := s.queue ++ [m] }
  if s1.state = State.Open then tryIssueNextWrite s1 else (s1, [])

/-- Modelled from the spec (body of `WriteAndFinish` is in the missing
`grpc_stream.cc`): discards buffered, not-yet-issued writes; if the
stream is open, issues the message as a final write, waits for that
write's completion and finishes, returning true; otherwise it degrades to
plain `Finish` and returns false.  Neither the write nor the finish
notifies the observer. -/
def writeAndFinish (s : StreamState) (m : ByteBuffer) :
    StreamState × List Effect × Bool :=
  if s.finishCalled then (s, [], false)
  else if s.state = State.Open then
    ({ FastFinishOperationsBlocking s with
        state := State.Finished
        finishCalled := true
        queue := [] },
      [Effect.issueWrite m], true)
  else ((finish s).1, (finish s).2, false)

/-- Modelled from the spec (body of `OnStart` is in the missing
`grpc_stream.cc`), generation-matching case with state `Starting`:
transition to `Open`, record the response metadata, notify
`OnStreamStart`, issue the first listening read, and let the write buffer
issue the first buffered write, if any. -/
def onStartStep (s : StreamState) (headers : MetadataT) :
    StreamState × List Effect :=
  let s1 :=
    { s with
      state := State.Open
      opened := true
      responseHeaders := headers
      startPending := false
      hasPendingRead := true }
  ((tryIssueNextWrite s1).1,
    Effect.notifyStart :: Effect.issueRead :: (tryIssueNextWrite s1).2)

/-- Modelled from the spec (body of `OnWrite` is in the missing
`grpc_stream.cc`), generation-matching case: inform the write buffer that
the in-flight write finished; the buffer issues the next queued write, if
any. -/
def onWriteStep (s : StreamState) : StreamState × List Effect :=
  tryIssueNextWrite { s with writeInFlight := false }

/-- Modelled from the spec: the complete transition function of the
stream.  Every completion callback first absorbs if the stream is already
`Finished` (`Finished` is absorbing: once reached, the stream accepts no
further operations), then checks the generation; a mismatch is silently
absorbed.  Public methods called after the stream finished, or in a state
violating their precondition, are modelled as no-ops. -/
def step (s : StreamState) (e : Event) : StreamState × List Effect :=
  match e with
  | Event.callIsFinished => (s, [])
  | Event.callGetResponseHeaders => (s, [])
  | Event.callStart =>
    if s.state = State.NotStarted then
      ({ s with state := State.Starting, startPending := true },
        [Effect.issueStart])
    else (s, [])
  | Event.callWrite m =>
    if s.state = State.Finished then (s, []) else write s m
  | Event.callFinish => finish s
  | Event.callWriteAndFinish m =>
    ((writeAndFinish s m).1, (writeAndFinish s m).2.1)
  | Event.onStart g headers =>
    if s.state = State.Finished then (s, [])
    else if SameGeneration s g then
      if s.state = State.Starting then onStartStep s headers else (s, [])
    else (s, [])
  | Event.onRead m g gAfter =>
    if s.state = State.Finished then (s, [])
    else if SameGeneration s g then
      if SameGeneration s gAfter then
        ({ s with hasPendingRead := true },
          [Effect.notifyRead m, Effect.issueRead])
      else ({ s with hasPendingRead := false }, [Effect.notifyRead m])
    else ({ s with hasPendingRead := false }, [])
  | Event.onWrite g =>
    if s.state = State.Finished then (s, [])
    else if SameGeneration s g then onWriteStep s
    else (s, [])
  | Event.onOperationFailed g =>
    if s.state = State.Finished then (s, [])
    else if SameGeneration s g then
      if stateIdx s.state < stateIdx State.Finishing then
        ({ s with state := State.Finishing, finishOpPending := true },
          [Effect.issueFinish])
      else (s, [])
    else (s, [])
  | Event.onFinishedByServer st g =>
    if s.state = State.Finished then (s, [])
    else if SameGeneration s g then
      if s.finishCalled then
        ({ s with state := State.Finished, finishOpPending := false }, [])
      else
        ({ s with state := State.Finished, finishOpPending := false },
          [Effect.notifyError st])
    else (s, [])
  | Event.onFinishedByClient =>
    if s.state = State.Finished then (s, [])
    else ({ s with state := State.Finished, finishOpPending := false }, [])

/-- Events that are operation-completion callbacks. -/
def isCompletion : Event → Bool
  | Event.onStart _ _ => true
  | Event.onRead _ _ _ => true
  | Event.onWrite _ => true
  | Event.onOperationFailed _ => true
  | Event.onFinishedByServer _ _ => true
  | Event.onFinishedByClient => true
  | _ => false

/-- The observer generation a completion callback is checked against, when
it performs a generation check. -/
def completionGen : Event → Option Int
  | Event.onStart g _ => some g
  | Event.onRead _ g _ => some g
  | Event.onWrite g => some g
  | Event.onOperationFailed g => some g
  | Event.onFinishedByServer _ g => some g
  | _ => none

/-- Whether a list of effects contains no observer call. -/
def noObserverCalls (effs : List Effect) : Bool :=
  effs.all (fun eff => ! eff.isObserverCall)

/-- Messages issued to the transport by a list of effects, in order. -/
def issuedWrites (effs : List Effect) : List ByteBuffer :=
  effs.filterMap (fun eff =>
    match eff with
    | Effect.issueWrite m => some m
    | _ => none)

/-- Whether an effect issues a read operation. -/
def isIssueRead : Effect → Bool
  | Effect.issueRead => true
  | _ => false

/-- Number of read operations issued by a list of effects. -/
def issuedReads (effs : List Effect) : Nat :=
  (effs.filter isIssueRead).length

/-- The write buffer's queue after the enqueue a public `Write` call
performs, and unchanged for every other event. -/
def queueAfterEnqueue (s : StreamState) (e : Event) : List ByteBuffer :=
  match e with
  | Event.callWrite m => s.queue ++ [m]
  | _ => s.queue

/-- Teardown actions of the destructor.  The header requires `call_` to be
destroyed before `context_` (declaration order: `context_` first, so C++
reverse destruction order destroys `call_` first). -/
inductive TeardownStep
  | forceComplete
  | destroyCall
  | destroyContext
deriving DecidableEq

/-- Modelled from the spec (body of the destructor is in the missing
`grpc_stream.cc`): before the transport handle and its context are
destroyed, every outstanding operation is driven to a forced completion;
then `call_` is destroyed before `context_`, per the declaration order and
comment in the header. -/
def destructorSeq (s : StreamState) : List TeardownStep :=
  (if outstandingOps s == 0 then [] else [TeardownStep.forceComplete]) ++
    [TeardownStep.destroyCall, TeardownStep.destroyContext]

/-- States reachable from a freshly constructed stream by any sequence of
public method calls and completion callbacks. -/
inductive Reachable : StreamState → Prop
  | init (g : Int) : Reachable (initialState g)
  | next (s : StreamState) (e : Event) :
      Reachable s → Reachable (step s e).1

section HelperLemmas

/-- The write buffer step never changes the state enumeration. -/
@[simp]
lemma tryIssueNextWrite_state (s : StreamState) :
    (tryIssueNextWrite s).1.state = s.state := by
  unfold tryIssueNextWrite
  cases hq : s.queue with
  | nil => rfl
  | cons m rest =>
    dsimp only
    split <;> rfl

/-- The write buffer step never changes the generation snapshot. -/
@[simp]
lemma tryIssueNextWrite_generation (s : StreamState) :
    (tryIssueNextWrite s).1.generation = s.generation := by
  unfold tryIssueNextWrite
  cases hq : s.queue with
  | nil => rfl
  | cons m rest =>
    dsimp only
    split <;> rfl

/-- The write buffer step never changes the finish-called flag. -/
@[simp]
lemma tryIssueNextWrite_finishCalled (s : StreamState) :
    (tryIssueNextWrite s).1.finishCalled = s.finishCalled := by
  unfold tryIssueNextWrite
  cases hq : s.queue with
  | nil => rfl
  | cons m rest =>
    dsimp only
    split <;> rfl

/-- The write buffer step never changes the opened flag. -/
@[simp]
lemma tryIssueNextWrite_opened (s : StreamState) :
    (tryIssueNextWrite s).1.opened = s.opened := by
  unfold tryIssueNextWrite
  cases hq : s.queue with
  | nil => rfl
  | cons m rest =>
    dsimp only
    split <;> rfl

/-- The write buffer step never changes the response metadata. -/
@[simp]
lemma tryIssueNextWrite_responseHeaders (s : StreamState) :
    (tryIssueNextWrite s).1.responseHeaders = s.responseHeaders := by
  unfold tryIssueNextWrite
  cases hq : s.queue with
  | nil => rfl
  | cons m rest =>
    dsimp only
    split <;> rfl

/-- The write buffer step never changes the pending-read flag. -/
@[simp]
lemma tryIssueNextWrite_hasPendingRead (s : StreamState) :
    (tryIssueNextWrite s).1.hasPendingRead = s.hasPendingRead := by
  unfold tryIssueNextWrite
  cases hq : s.queue with
  | nil => rfl
  | cons m rest =>
    dsimp only
    split <;> rfl

/-- The write buffer step only issues write operations, never observer
calls or other operations. -/
lemma tryIssueNextWrite_effects (s : StreamState) :
    (tryIssueNextWrite s).2 = [] ∨
      ∃ m rest, s.queue = m :: rest ∧ s.writeInFlight = false ∧
        (tryIssueNextWrite s).2 = [Effect.issueWrite m] ∧
        (tryIssueNextWrite s).1 =
          { s with queue := rest, writeInFlight := true } := by
  unfold tryIssueNextWrite
  cases hq : s.queue with
  | nil => exact Or.inl rfl
  | cons m rest =>
    dsimp only
    by_cases hw : s.writeInFlight
    · simp [hw]
    · simp only [hw, if_false, Bool.false_eq_true]
      exact Or.inr ⟨m, rest, rfl, by simp [hw], by simp, rfl⟩

/-- Every state sits at position at most four of the linear order. -/
lemma stateIdx_le_four (st : State) : stateIdx st ≤ 4 := by
  cases st <;> decide

/-- A public `Write` never changes the state enumeration. -/
@[simp]
lemma write_state (s : StreamState) (m : ByteBuffer) :
    (write s m).1.state = s.state := by
  unfold write
  dsimp only
  split
  · rw [tryIssueNextWrite_state]
  · rfl

/-- A write completion never changes the state enumeration. -/
@[simp]
lemma onWriteStep_state (s : StreamState) :
    (onWriteStep s).1.state = s.state := by
  unfold onWriteStep
  rw [tryIssueNextWrite_state]

/-- A matching start completion moves the stream to `Open`. -/
@[simp]
lemma onStartStep_state (s : StreamState) (headers : MetadataT) :
    (onStartStep s headers).1.state = State.Open := by
  unfold onStartStep
  dsimp only
  rw [tryIssueNextWrite_state]

/-- Finishing never emits any effect. -/
@[simp]
lemma finish_effects (s : StreamState) : (finish s).2 = [] := by
  unfold finish
  split <;> rfl

/-- The stream state only ever advances in the linear order of states. -/
lemma step_state_mono (s : StreamState) (e : Event) :
    stateIdx s.state ≤ stateIdx (step s e).1.state := by
  cases e with
  | callIsFinished => exact le_refl _
  | callGetResponseHeaders => exact le_refl _
  | callStart =>
    by_cases h : s.state = State.NotStarted
    · simp [step, h, stateIdx]
    · simp [step, h]
  | callWrite m =>
    by_cases h : s.state = State.Finished
    · simp [step, h]
    · simp [step, h]
  | callFinish =>
    simp only [step]
    unfold finish
    split
    · exact le_refl _
    · simpa [stateIdx] using stateIdx_le_four s.state
  | callWriteAndFinish m =>
    simp only [step]
    unfold writeAndFinish
    split
    · exact le_refl _
    · split
      · simpa [stateIdx] using stateIdx_le_four s.state
      · unfold finish
        split
        · exact le_refl _
        · simpa [stateIdx] using stateIdx_le_four s.state
  | onStart g headers =>
    simp only [step]
    split
    · exact le_refl _
    · split
      · split
        · case _ h _ h2 =>
          simp [h2, stateIdx]
        · exact le_refl _
      · exact le_refl _
  | onRead m g gAfter =>
    simp only [step]
    split
    · exact le_refl _
    · split
      · split <;> exact le_refl _
      · exact le_refl _
  | onWrite g =>
    simp only [step]
    split
    · exact le_refl _
    · split
      · simp
      · exact le_refl _
  | onOperationFailed g =>
    simp only [step]
    split
    · exact le_refl _
    · split
      · split
        · case _ h3 =>
          show stateIdx s.state ≤ stateIdx State.Finishing
          exact le_of_lt h3
        · exact le_refl _
      · exact le_refl _
  | onFinishedByServer st g =>
    simp only [step]
    split
    · exact le_refl _
    · split
      · split <;> simpa [stateIdx] using stateIdx_le_four s.state
      · exact le_refl _
  | onFinishedByClient =>
    simp only [step]
    split
    · exact le_refl _
    · simpa [stateIdx] using stateIdx_le_four s.state

/-- Once the stream is `Finished`, every event leaves the state at
`Finished` and produces no effect at all. -/
lemma step_finished_absorbing (s : StreamState) (e : Event)
    (h : s.state = State.Finished) :
    (step s e).1.state = State.Finished ∧ (step s e).2 = [] := by
  cases e with
  | callIsFinished => exact ⟨h, rfl⟩
  | callGetResponseHeaders => exact ⟨h, rfl⟩
  | callStart => simp [step, h]
  | callWrite m => simp [step, h]
  | callFinish =>
    simp only [step]
    refine ⟨?_, finish_effects s⟩
    unfold finish
    split
    · exact h
    · rfl
  | callWriteAndFinish m =>
    simp only [step]
    unfold writeAndFinish
    split
    · exact ⟨h, rfl⟩
    · split
      · case _ h2 => rw [h] at h2; exact absurd h2 (by decide)
      · refine ⟨?_, by simp⟩
        unfold finish
        split
        · exact h
        · rfl
  | onStart g headers => simp [step, h]
  | onRead m g gAfter => simp [step, h]
  | onWrite g => simp [step, h]
  | onOperationFailed g => simp [step, h]
  | onFinishedByServer st g => simp [step, h]
  | onFinishedByClient => simp [step, h]

/-- A public `Write` never changes the opened flag, the response metadata
or the finish-called flag. -/
@[simp]
lemma write_opened (s : StreamState) (m : ByteBuffer) :
    (write s m).1.opened = s.opened := by
  unfold write
  dsimp only
  split
  · rw [tryIssueNextWrite_opened]
  · rfl

/-- A public `Write` keeps the response metadata. -/
@[simp]
lemma write_responseHeaders (s : StreamState) (m : ByteBuffer) :
    (write s m).1.responseHeaders = s.responseHeaders := by
  unfold write
  dsimp only
  split
  · rw [tryIssueNextWrite_responseHeaders]
  · rfl

/-- A public `Write` keeps the finish-called flag. -/
@[simp]
lemma write_finishCalled (s : StreamState) (m : ByteBuffer) :
    (write s m).1.finishCalled = s.finishCalled := by
  unfold write
  dsimp only
  split
  · rw [tryIssueNextWrite_finishCalled]
  · rfl

/-- A write completion keeps the opened flag. -/
@[simp]
lemma onWriteStep_opened (s : StreamState) :
    (onWriteStep s).1.opened = s.opened := by
  unfold onWriteStep
  rw [tryIssueNextWrite_opened]

/-- A write completion keeps the response metadata. -/
@[simp]
lemma onWriteStep_responseHeaders (s : StreamState) :
    (onWriteStep s).1.responseHeaders = s.responseHeaders := by
  unfold onWriteStep
  rw [tryIssueNextWrite_responseHeaders]

/-- A write completion keeps the finish-called flag. -/
@[simp]
lemma onWriteStep_finishCalled (s : StreamState) :
    (onWriteStep s).1.finishCalled = s.finishCalled := by
  unfold onWriteStep
  rw [tryIssueNextWrite_finishCalled]

/-- A matching start completion marks the stream opened. -/
@[simp]
lemma onStartStep_opened (s : StreamState) (headers : MetadataT) :
    (onStartStep s headers).1.opened = true := by
  unfold onStartStep
  dsimp only
  rw [tryIssueNextWrite_opened]

/-- A matching start completion records the response metadata delivered at
open. -/
@[simp]
lemma onStartStep_responseHeaders (s : StreamState) (headers : MetadataT) :
    (onStartStep s headers).1.responseHeaders = headers := by
  unfold onStartStep
  dsimp only
  rw [tryIssueNextWrite_responseHeaders]

/-- A matching start completion keeps the finish-called flag. -/
@[simp]
lemma onStartStep_finishCalled (s : StreamState) (headers : MetadataT) :
    (onStartStep s headers).1.finishCalled = s.finishCalled := by
  unfold onStartStep
  dsimp only
  rw [tryIssueNextWrite_finishCalled]

/-- Structural invariant of reachable stream states: response metadata is
empty until the stream opens, an opened stream has advanced at least to
`Open` in the linear order, and a caller-finished stream is `Finished`. -/
def Inv (s : StreamState) : Prop :=
  (s.opened = false → s.responseHeaders = []) ∧
    (s.opened = true → 2 ≤ stateIdx s.state) ∧
    (s.finishCalled = true → s.state = State.Finished)

/-- The invariant holds of a freshly constructed stream. -/
lemma inv_initial (g : Int) : Inv (initialState g) := by
  refine ⟨fun _ => rfl, fun h => ?_, fun h => ?_⟩ <;>
    simp [initialState] at h

/-- Transfer of the invariant along a step that keeps the observable
fields and only advances the state. -/
lemma inv_of_fields (s t : StreamState)
    (hop : t.opened = s.opened)
    (hrh : t.responseHeaders = s.responseHeaders)
    (hfc : t.finishCalled = s.finishCalled)
    (hst : stateIdx s.state ≤ stateIdx t.state)
    (hfin : s.state = State.Finished → t.state = State.Finished)
    (h : Inv s) : Inv t := by
  obtain ⟨h1, h2, h3⟩ := h
  refine ⟨?_, ?_, ?_⟩
  · intro ho
    rw [hrh]
    exact h1 (by rw [← hop]; exact ho)
  · intro ho
    exact le_trans (h2 (by rw [← hop]; exact ho)) hst
  · intro hf
    exact hfin (h3 (by rw [← hfc]; exact hf))

/-- Finishing preserves the invariant. -/
lemma inv_finish (s : StreamState) (h : Inv s) : Inv (finish s).1 := by
  obtain ⟨h1, h2, h3⟩ := h
  unfold finish
  split
  · exact ⟨h1, h2, h3⟩
  · exact ⟨fun ho => h1 ho, fun _ => by simp [stateIdx], fun _ => rfl⟩

/-- A matching start completion in state `Starting` preserves the
invariant. -/
lemma inv_onStartStep (s : StreamState) (headers : MetadataT)
    (hst : s.state = State.Starting) (h : Inv s) :
    Inv (onStartStep s headers).1 := by
  obtain ⟨h1, h2, h3⟩ := h
  refine ⟨?_, ?_, ?_⟩
  · intro ho
    rw [onStartStep_opened] at ho
    exact absurd ho (by decide)
  · intro _
    rw [onStartStep_state]
    decide
  · intro hf
    rw [onStartStep_finishCalled] at hf
    have := h3 hf
    rw [hst] at this
    exact absurd this (by decide)

/-- Every transition of the stream preserves the structural invariant. -/
lemma inv_preserved (s : StreamState) (e : Event) (h : Inv s) :
    Inv (step s e).1 := by
  have hmono := step_state_mono s e
  obtain ⟨h1, h2, h3⟩ := h
  cases e with
  | callIsFinished => exact ⟨h1, h2, h3⟩
  | callGetResponseHeaders => exact ⟨h1, h2, h3⟩
  | callStart =>
    simp only [step]
    split
    · case _ hs =>
      refine inv_of_fields s _ rfl rfl rfl ?_ ?_ ⟨h1, h2, h3⟩
      · rw [hs]
        simp [stateIdx]
      · intro hf
        rw [hs] at hf
        exact absurd hf (by decide)
    · exact ⟨h1, h2, h3⟩
  | callWrite m =>
    simp only [step]
    split
    · exact ⟨h1, h2, h3⟩
    · exact inv_of_fields s _ (write_opened s m) (write_responseHeaders s m)
        (write_finishCalled s m) (le_of_eq (congrArg stateIdx (write_state s m).symm))
        (fun hf => by rw [write_state]; exact hf) ⟨h1, h2, h3⟩
  | callFinish =>
    simp only [step]
    exact inv_finish s ⟨h1, h2, h3⟩
  | callWriteAndFinish m =>
    simp only [step]
    unfold writeAndFinish
    split
    · exact ⟨h1, h2, h3⟩
    · split
      · exact ⟨fun ho => h1 ho, fun _ => by simp [stateIdx], fun _ => rfl⟩
      · exact inv_finish s ⟨h1, h2, h3⟩
  | onStart g headers =>
    simp only [step]
    split
    · exact ⟨h1, h2, h3⟩
    · split
      · split
        · case _ hs => exact inv_onStartStep s headers hs ⟨h1, h2, h3⟩
        · exact ⟨h1, h2, h3⟩
      · exact ⟨h1, h2, h3⟩
  | onRead m g gAfter =>
    simp only [step]
    split
    · exact ⟨h1, h2, h3⟩
    · split
      · split
        · exact inv_of_fields s _ rfl rfl rfl (le_refl _) (fun hf => hf)
            ⟨h1, h2, h3⟩
        · exact inv_of_fields s _ rfl rfl rfl (le_refl _) (fun hf => hf)
            ⟨h1, h2, h3⟩
      · exact inv_of_fields s _ rfl rfl rfl (le_refl _) (fun hf => hf)
          ⟨h1, h2, h3⟩
  | onWrite g =>
    simp only [step]
    split
    · exact ⟨h1, h2, h3⟩
    · split
      · exact inv_of_fields s _ (onWriteStep_opened s)
          (onWriteStep_responseHeaders s) (onWriteStep_finishCalled s)
          (le_of_eq (congrArg stateIdx (onWriteStep_state s).symm))
          (fun hf => by rw [onWriteStep_state]; exact hf) ⟨h1, h2, h3⟩
      · exact ⟨h1, h2, h3⟩
  | onOperationFailed g =>
    simp only [step]
    split
    · exact ⟨h1, h2, h3⟩
    · split
      · split
        · case _ hlt =>
          refine inv_of_fields s _ rfl rfl rfl (le_of_lt hlt) ?_ ⟨h1, h2, h3⟩
          intro hf
          rw [hf] at hlt
          exact absurd hlt (by decide)
        · exact ⟨h1, h2, h3⟩
      · exact ⟨h1, h2, h3⟩
  | onFinishedByServer st g =>
    simp only [step]
    split
    · exact ⟨h1, h2, h3⟩
    · split
      · split
        · exact inv_of_fields s _ rfl rfl rfl
            (by simpa [stateIdx] using stateIdx_le_four s.state)
            (fun _ => rfl) ⟨h1, h2, h3⟩
        · exact inv_of_fields s _ rfl rfl rfl
            (by simpa [stateIdx] using stateIdx_le_four s.state)
            (fun _ => rfl) ⟨h1, h2, h3⟩
      · exact ⟨h1, h2, h3⟩
  | onFinishedByClient =>
    simp only [step]
    split
    · exact ⟨h1, h2, h3⟩
    · exact inv_of_fields s _ rfl rfl rfl
        (by simpa [stateIdx] using stateIdx_le_four s.state)
        (fun _ => rfl) ⟨h1, h2, h3⟩

/-- Every reachable stream state satisfies the structural invariant. -/
lemma reachable_inv (s : StreamState) (h : Reachable s) : Inv s := by
  induction h with
  | init g => exact inv_initial g
  | next t e _ ih => exact inv_preserved t e ih

/-- On a generation mismatch, every completion callback is silently
absorbed: it produces no effect at all. -/
lemma step_mismatch_no_effects (s : StreamState) (e : Event) (g : Int)
    (hg : completionGen e = some g) (hne : ¬ g = s.generation) :
    (step s e).2 = [] := by
  cases e with
  | callStart => exact absurd hg (by simp [completionGen])
  | callWrite m => exact absurd hg (by simp [completionGen])
  | callFinish => exact absurd hg (by simp [completionGen])
  | callWriteAndFinish m => exact absurd hg (by simp [completionGen])
  | callIsFinished => exact absurd hg (by simp [completionGen])
  | callGetResponseHeaders => exact absurd hg (by simp [completionGen])
  | onFinishedByClient => exact absurd hg (by simp [completionGen])
  | onStart g2 headers =>
    simp only [completionGen, Option.some.injEq] at hg
    have hsg : SameGeneration s g2 = false := by
      simp only [SameGeneration, beq_eq_false_iff_ne, ne_eq]
      intro h
      exact hne (hg.symm.trans h.symm)
    simp only [step]
    split
    · rfl
    · simp [hsg]
  | onRead m g2 gAfter =>
    simp only [completionGen, Option.some.injEq] at hg
    have hsg : SameGeneration s g2 = false := by
      simp only [SameGeneration, beq_eq_false_iff_ne, ne_eq]
      intro h
      exact hne (hg.symm.trans h.symm)
    simp only [step]
    split
    · rfl
    · simp [hsg]
  | onWrite g2 =>
    simp only [completionGen, Option.some.injEq] at hg
    have hsg : SameGeneration s g2 = false := by
      simp only [SameGeneration, beq_eq_false_iff_ne, ne_eq]
      intro h
      exact hne (hg.symm.trans h.symm)
    simp only [step]
    split
    · rfl
    · simp [hsg]
  | onOperationFailed g2 =>
    simp only [completionGen, Option.some.injEq] at hg
    have hsg : SameGeneration s g2 = false := by
      simp only [SameGeneration, beq_eq_false_iff_ne, ne_eq]
      intro h
      exact hne (hg.symm.trans h.symm)
    simp only [step]
    split
    · rfl
    · simp [hsg]
  | onFinishedByServer st g2 =>
    simp only [completionGen, Option.some.injEq] at hg
    have hsg : SameGeneration s g2 = false := by
      simp only [SameGeneration, beq_eq_false_iff_ne, ne_eq]
      intro h
      exact hne (hg.symm.trans h.symm)
    simp only [step]
    split
    · rfl
    · simp [hsg]

/-- A caller-initiated finish leaves the stream in state `Finished`. -/
lemma finish_state_finished (s : StreamState) (hfc : s.finishCalled = false) :
    (step s Event.callFinish).1.state = State.Finished := by
  simp [step, finish, hfc]

/-- A caller-initiated finish drives every outstanding operation to
completion. -/
lemma finish_outstanding (s : StreamState) (hfc : s.finishCalled = false) :
    outstandingOps (step s Event.callFinish).1 = 0 := by
  simp [step, finish, hfc, outstandingOps, FastFinishOperationsBlocking]

/-- If the write buffer issues a write, no write was in flight and the
issued message is the oldest queued one, the rest staying queued in
order. -/
lemma tryIssueNextWrite_issueWrite (s : StreamState) (m : ByteBuffer)
    (hm : Effect.issueWrite m ∈ (tryIssueNextWrite s).2) :
    s.writeInFlight = false ∧
      s.queue = m :: (tryIssueNextWrite s).1.queue := by
  rcases tryIssueNextWrite_effects s with h | ⟨m0, rest, hq, hw, heff, hst⟩
  · rw [h] at hm
    cases hm
  · rw [heff] at hm
    simp only [List.mem_singleton, Effect.issueWrite.injEq] at hm
    subst hm
    refine ⟨hw, ?_⟩
    rw [hst]
    exact hq

/-- The write buffer issues at most one write per step. -/
lemma tryIssueNextWrite_writes_len (s : StreamState) :
    (issuedWrites (tryIssueNextWrite s).2).length ≤ 1 := by
  rcases tryIssueNextWrite_effects s with h | ⟨m0, rest, hq, hw, heff, hst⟩
  · rw [h]
    simp [issuedWrites]
  · rw [heff]
    simp [issuedWrites]

/-- The write buffer never issues reads. -/
lemma tryIssueNextWrite_reads (s : StreamState) :
    issuedReads (tryIssueNextWrite s).2 = 0 := by
  rcases tryIssueNextWrite_effects s with h | ⟨m0, rest, hq, hw, heff, hst⟩
  · rw [h]
    simp [issuedReads]
  · rw [heff]
    simp [issuedReads, isIssueRead]

/-- The write buffer never calls the observer. -/
lemma tryIssueNextWrite_noObs (s : StreamState) :
    noObserverCalls (tryIssueNextWrite s).2 = true := by
  rcases tryIssueNextWrite_effects s with h | ⟨m0, rest, hq, hw, heff, hst⟩
  · rw [h]
    rfl
  · rw [heff]
    rfl

/-- Unless the stream is in state `Starting` (the only state in which a
start completion can land), no event changes the response metadata. -/
lemma step_responseHeaders_of_not_starting (s : StreamState) (e : Event)
    (h : ¬ s.state = State.Starting) :
    (step s e).1.responseHeaders = s.responseHeaders := by
  cases e with
  | callIsFinished => rfl
  | callGetResponseHeaders => rfl
  | callStart =>
    simp only [step]
    split <;> rfl
  | callWrite m =>
    simp only [step]
    split
    · rfl
    · rw [write_responseHeaders]
  | callFinish =>
    simp only [step]
    unfold finish
    split <;> rfl
  | callWriteAndFinish m =>
    simp only [step]
    unfold writeAndFinish
    split
    · rfl
    · split
      · rfl
      · unfold finish
        split <;> rfl
  | onStart g headers =>
    by_cases hf : s.state = State.Finished
    · simp [step, hf]
    · by_cases hsg : SameGeneration s g = true
      · simp [step, hf, hsg, h]
      · simp [step, hf, hsg]
  | onRead m g gAfter =>
    simp only [step]
    split
    · rfl
    · split
      · split <;> rfl
      · rfl
  | onWrite g =>
    simp only [step]
    split
    · rfl
    · split
      · rw [onWriteStep_responseHeaders]
      · rfl
  | onOperationFailed g =>
    simp only [step]
    split
    · rfl
    · split
      · split <;> rfl
      · rfl
  | onFinishedByServer st g =>
    simp only [step]
    split
    · rfl
    · split
      · split <;> rfl
      · rfl
  | onFinishedByClient =>
    simp only [step]
    split <;> rfl

/-- Effect shape of a matching start completion: the `OnStreamStart`
notification, the first listening read, and possibly the first buffered
write (issued FIFO when none is in flight). -/
lemma onStartStep_effects (s : StreamState) (headers : MetadataT) :
    (onStartStep s headers).2 = [Effect.notifyStart, Effect.issueRead] ∨
      ∃ m, (onStartStep s headers).2 =
          [Effect.notifyStart, Effect.issueRead, Effect.issueWrite m] ∧
        s.writeInFlight = false ∧
        s.queue = m :: (onStartStep s headers).1.queue := by
  unfold onStartStep
  dsimp only
  rcases tryIssueNextWrite_effects
      { s with
        state := State.Open
        opened := true
        responseHeaders := headers
        startPending := false
        hasPendingRead := true } with h | ⟨m0, rest, hq, hw, heff, hst⟩
  · rw [h]
    exact Or.inl rfl
  · rw [heff]
    refine Or.inr ⟨m0, rfl, hw, ?_⟩
    rw [hst]
    exact hq

/-- Effect shape of a matching write completion: either nothing, or the
next queued write issued FIFO. -/
lemma onWriteStep_effects (s : StreamState) :
    (onWriteStep s).2 = [] ∨
      ∃ m, (onWriteStep s).2 = [Effect.issueWrite m] ∧
        s.queue = m :: (onWriteStep s).1.queue := by
  unfold onWriteStep
  rcases tryIssueNextWrite_effects { s with writeInFlight := false } with
    h | ⟨m0, rest, hq, hw, heff, hst⟩
  · rw [h]
    exact Or.inl rfl
  · rw [heff]
    refine Or.inr ⟨m0, rfl, ?_⟩
    rw [hst]
    exact hq

end HelperLemmas

section ClaimTheorems

/-- Claim C1: for every sequence of public method calls and operation
completions, the stream state only advances forward in the linear order
`NotStarted < Starting < Open < Finishing < Finished` (each single step
preserves or increases the position, hence so does every sequence), and
`Finished` is absorbing: once reached, every further event leaves the
state at `Finished` and causes no operation or notification at all. -/
theorem C1_state_monotone_finished_absorbing :
    ∀ (s : StreamState) (e : Event),
      stateIdx s.state ≤ stateIdx (step s e).1.state ∧
        (s.state = State.Finished →
          (step s e).1.state = State.Finished ∧ (step s e).2 = []) :=
  fun s e => ⟨step_state_mono s e, fun h => step_finished_absorbing s e h⟩

/-- Witness for C1 at a concrete finished stream and a concrete event. -/
theorem C1_witness :
    stateIdx ({ initialState 0 with state := State.Finished }).state ≤
        stateIdx
          (step { initialState 0 with state := State.Finished }
            Event.callStart).1.state ∧
      (({ initialState 0 with state := State.Finished }).state =
          State.Finished →
        (step { initialState 0 with state := State.Finished }
              Event.callStart).1.state = State.Finished ∧
          (step { initialState 0 with state := State.Finished }
              Event.callStart).2 = []) :=
  C1_state_monotone_finished_absorbing
    { initialState 0 with state := State.Finished } Event.callStart

/-- Claim C2: the stream never calls any observer method after a
generation mismatch is observed on a completion (a mismatched completion
produces no effects, hence no observer call), nor for any completion
delivered after a caller-initiated `Finish`: finishing and then delivering
any completion produces zero observer notifications. -/
theorem C2_no_observer_call_after_mismatch_or_finish :
    ∀ (s : StreamState) (e : Event) (g : Int),
      (completionGen e = some g → ¬ g = s.generation →
        noObserverCalls (step s e).2 = true) ∧
      (s.finishCalled = false → isCompletion e = true →
        noObserverCalls (step (step s Event.callFinish).1 e).2 = true) := by
  intro s e g
  refine ⟨fun hg hne => ?_, fun hfc _ => ?_⟩
  · rw [step_mismatch_no_effects s e g hg hne]
    rfl
  · rw [(step_finished_absorbing (step s Event.callFinish).1 e
      (finish_state_finished s hfc)).2]
    rfl

/-- Witness for C2: a queued read completion, once for a mismatched
generation and once delivered after `Finish`, yields no observer call. -/
theorem C2_witness :
    noObserverCalls
        (step { initialState 0 with state := State.Open }
          (Event.onRead [7] 1 1)).2 = true ∧
      noObserverCalls
          (step (step { initialState 0 with state := State.Open }
              Event.callFinish).1
            (Event.onRead [7] 0 0)).2 = true :=
  ⟨(C2_no_observer_call_after_mismatch_or_finish
      { initialState 0 with state := State.Open } (Event.onRead [7] 1 1) 1).1
      (by decide) (by decide),
    (C2_no_observer_call_after_mismatch_or_finish
      { initialState 0 with state := State.Open } (Event.onRead [7] 0 0) 0).2
      (by decide) (by decide)⟩

/-- Claim C3: a read completion on a live stream is absorbed without any
effect (no `OnStreamRead`, no new read) when the observer's generation
differs from the snapshot; otherwise the very first effect is the
`OnStreamRead` notification, and a next read is issued if and only if the
generation still matches after the notification returns. -/
theorem C3_onread_contract :
    ∀ (s : StreamState) (m : ByteBuffer) (g gAfter : Int),
      ¬ s.state = State.Finished →
      ((¬ g = s.generation → (step s (Event.onRead m g gAfter)).2 = []) ∧
        (g = s.generation →
          (step s (Event.onRead m g gAfter)).2.head? =
              some (Effect.notifyRead m) ∧
            (Effect.issueRead ∈ (step s (Event.onRead m g gAfter)).2 ↔
              gAfter = s.generation))) := by
  intro s m g gAfter hfin
  refine ⟨fun hne => ?_, fun heq => ?_⟩
  · exact step_mismatch_no_effects s (Event.onRead m g gAfter) g rfl hne
  · by_cases hga : gAfter = s.generation
    · simp [step, hfin, SameGeneration, heq, hga]
    · have hga2 : ¬ s.generation = gAfter := fun h => hga h.symm
      simp [step, hfin, SameGeneration, heq, hga, hga2]

/-- Witness for C3 at a concrete open stream with a matching generation
whose observer keeps the generation during the notification. -/
theorem C3_witness :
    (step { initialState 0 with state := State.Open }
          (Event.onRead [7] 0 0)).2.head? = some (Effect.notifyRead [7]) ∧
      (Effect.issueRead ∈
          (step { initialState 0 with state := State.Open }
            (Event.onRead [7] 0 0)).2 ↔
        (0 : Int) = ({ initialState 0 with state := State.Open }).generation) :=
  (C3_onread_contract { initialState 0 with state := State.Open } [7] 0 0
      (by decide)).2 (by decide)

/-- Claim C4: under the precondition that `Finish` has not been called
before, calling it in any state leaves the stream in state `Finished`
(so `IsFinished` subsequently returns true), drives every outstanding
operation to completion, and performs no effect at all, in particular no
observer notification. -/
theorem C4_finish_contract :
    ∀ (s : StreamState), s.finishCalled = false →
      (step s Event.callFinish).1.state = State.Finished ∧
        IsFinished (step s Event.callFinish).1 = true ∧
        outstandingOps (step s Event.callFinish).1 = 0 ∧
        (step s Event.callFinish).2 = [] := by
  intro s hfc
  refine ⟨finish_state_finished s hfc, ?_, ?_, finish_effects s⟩
  · rw [IsFinished, finish_state_finished s hfc]
    rfl
  · simp [step, finish, hfc, outstandingOps, FastFinishOperationsBlocking]

/-- Witness for C4 at a concrete open stream with a pending read and an
in-flight write. -/
theorem C4_witness :
    (step
          { initialState 0 with
            state := State.Open
            hasPendingRead := true
            writeInFlight := true } Event.callFinish).1.state =
        State.Finished ∧
      IsFinished
          (step
            { initialState 0 with
              state := State.Open
              hasPendingRead := true
              writeInFlight := true } Event.callFinish).1 = true ∧
        outstandingOps
            (step
              { initialState 0 with
                state := State.Open
                hasPendingRead := true
                writeInFlight := true } Event.callFinish).1 = 0 ∧
          (step
              { initialState 0 with
                state := State.Open
                hasPendingRead := true
                writeInFlight := true } Event.callFinish).2 = [] :=
  C4_finish_contract
    { initialState 0 with
      state := State.Open
      hasPendingRead := true
      writeInFlight := true } (by decide)

/-- Claim C5: `WriteAndFinish`, called when `Finish` has not already
happened, always leaves the buffer of not-yet-issued writes empty and the
stream finished, and never calls the observer.  If the stream is not open
it behaves identically to `Finish` — no write reaches the transport and it
returns false ("has not opened" is formalised as the state not being
`Open`: by monotonicity a stream that never reached `Open` is never in
state `Open`).  If the stream is open, it issues the message as a final
write, finishes in the same step, and returns true.  Afterwards
`finishCalled` holds, so every further public call is a no-op. -/
theorem C5_write_and_finish_contract :
    ∀ (s : StreamState) (m : ByteBuffer), s.finishCalled = false →
      ((writeAndFinish s m).1.queue = [] ∧
          (writeAndFinish s m).1.state = State.Finished ∧
          (writeAndFinish s m).1.finishCalled = true ∧
          noObserverCalls (writeAndFinish s m).2.1 = true) ∧
        (¬ s.state = State.Open →
          writeAndFinish s m =
              ((step s Event.callFinish).1, (step s Event.callFinish).2,
                false) ∧
            issuedWrites (writeAndFinish s m).2.1 = []) ∧
        (s.state = State.Open →
          (writeAndFinish s m).2.1 = [Effect.issueWrite m] ∧
            (writeAndFinish s m).2.2 = true) := by
  intro s m hfc
  by_cases hs : s.state = State.Open
  · refine ⟨?_, fun hno => absurd hs hno, fun _ => ?_⟩
    · simp [writeAndFinish, hfc, hs, noObserverCalls, Effect.isObserverCall,
        FastFinishOperationsBlocking]
    · simp [writeAndFinish, hfc, hs]
  · refine ⟨?_, fun _ => ⟨?_, ?_⟩, fun hyes => absurd hyes hs⟩
    · simp [writeAndFinish, hfc, hs, finish, noObserverCalls,
        FastFinishOperationsBlocking]
    · simp [writeAndFinish, hfc, hs, step]
    · simp [writeAndFinish, hfc, hs, finish, issuedWrites]

/-- Witness for C5: on a concrete open stream the final write is issued
and `WriteAndFinish` reports true. -/
theorem C5_witness :
    (writeAndFinish { initialState 0 with state := State.Open } [3]).2.1 =
        [Effect.issueWrite [3]] ∧
      (writeAndFinish { initialState 0 with state := State.Open } [3]).2.2 =
        true :=
  (C5_write_and_finish_contract { initialState 0 with state := State.Open }
      [3] (by decide)).2.2 rfl

/-- Claim C6: for every interleaving of `Write` calls and completions, at
most one read and at most one write operation are issued per step, a new
read is issued only at start completion (when no read was ever armed) or
in response to the previous read completing, and every issued write is the
oldest queued message — writes reach the transport in FIFO order of the
`Write` calls, a new one only once the previous write completion
(`OnWrite`) has been processed or no write was in flight. -/
theorem C6_single_inflight_fifo :
    ∀ (s : StreamState) (e : Event),
      (s.state = State.Starting → s.hasPendingRead = false) →
      (∀ m0, ¬ e = Event.callWriteAndFinish m0) →
      ((issuedReads (step s e).2 ≤ 1 ∧
          (issuedWrites (step s e).2).length ≤ 1) ∧
        (1 ≤ issuedReads (step s e).2 →
          s.hasPendingRead = false ∨ ∃ m g g2, e = Event.onRead m g g2) ∧
        (∀ m, Effect.issueWrite m ∈ (step s e).2 →
          (s.writeInFlight = false ∨ ∃ g, e = Event.onWrite g) ∧
            queueAfterEnqueue s e = m :: (step s e).1.queue)) := by
  intro s e hsr hwaf
  cases e with
  | callWriteAndFinish m0 => exact absurd rfl (hwaf m0)
  | callIsFinished => simp [step, issuedReads, issuedWrites]
  | callGetResponseHeaders => simp [step, issuedReads, issuedWrites]
  | callStart =>
    by_cases h : s.state = State.NotStarted <;>
      simp [step, h, issuedReads, issuedWrites, isIssueRead]
  | callFinish =>
    have he : (step s Event.callFinish).2 = [] := finish_effects s
    simp [he, issuedReads, issuedWrites]
  | callWrite m1 =>
    by_cases hf : s.state = State.Finished
    · simp [step, hf, issuedReads, issuedWrites]
    · by_cases ho : s.state = State.Open
      · have hstep : step s (Event.callWrite m1) =
            tryIssueNextWrite { s with queue := s.queue ++ [m1] } := by
          simp [step, hf, write, ho]
        refine ⟨⟨?_, ?_⟩, fun hr => ?_, fun m hm => ?_⟩
        · rw [hstep, tryIssueNextWrite_reads]
          omega
        · rw [hstep]
          exact tryIssueNextWrite_writes_len _
        · rw [hstep, tryIssueNextWrite_reads] at hr
          exact absurd hr (by omega)
        · rw [hstep] at hm
          obtain ⟨hw, hq⟩ := tryIssueNextWrite_issueWrite _ m hm
          refine ⟨Or.inl hw, ?_⟩
          rw [hstep]
          exact hq
      · have hstep : step s (Event.callWrite m1) =
            ({ s with queue := s.queue ++ [m1] }, []) := by
          simp [step, hf, write, ho]
        simp [hstep, issuedReads, issuedWrites]
  | onStart g headers =>
    by_cases hf : s.state = State.Finished
    · simp [step, hf, issuedReads, issuedWrites]
    · by_cases hsg : SameGeneration s g = true
      · by_cases hst : s.state = State.Starting
        · have hstep : step s (Event.onStart g headers) =
              onStartStep s headers := by
            simp [step, hf, hsg, hst]
          rcases onStartStep_effects s headers with heff | ⟨m0, heff, hw, hq⟩
          · refine ⟨⟨?_, ?_⟩, fun _ => Or.inl (hsr hst), fun m hm => ?_⟩
            · rw [hstep, heff]
              simp [issuedReads, isIssueRead]
            · rw [hstep, heff]
              simp [issuedWrites]
            · rw [hstep, heff] at hm
              simp at hm
          · refine ⟨⟨?_, ?_⟩, fun _ => Or.inl (hsr hst), fun m hm => ?_⟩
            · rw [hstep, heff]
              simp [issuedReads, isIssueRead]
            · rw [hstep, heff]
              simp [issuedWrites]
            · rw [hstep, heff] at hm
              simp at hm
              subst hm
              refine ⟨Or.inl hw, ?_⟩
              rw [hstep]
              exact hq
        · have hstep : step s (Event.onStart g headers) = (s, []) := by
            simp [step, hf, hsg, hst]
          simp [hstep, issuedReads, issuedWrites]
      · have hstep : step s (Event.onStart g headers) = (s, []) := by
          simp [step, hf, hsg]
        simp [hstep, issuedReads, issuedWrites]
  | onRead m1 g1 g2 =>
    by_cases hf : s.state = State.Finished
    · simp [step, hf, issuedReads, issuedWrites]
    · by_cases hg : SameGeneration s g1 = true
      · by_cases hga : SameGeneration s g2 = true
        · have hstep : step s (Event.onRead m1 g1 g2) =
              ({ s with hasPendingRead := true },
                [Effect.notifyRead m1, Effect.issueRead]) := by
            simp [step, hf, hg, hga]
          refine ⟨⟨?_, ?_⟩, fun _ => Or.inr ⟨m1, g1, g2, rfl⟩,
            fun m hm => ?_⟩
          · rw [hstep]
            simp [issuedReads, isIssueRead]
          · rw [hstep]
            simp [issuedWrites]
          · rw [hstep] at hm
            simp at hm
        · have hstep : step s (Event.onRead m1 g1 g2) =
              ({ s with hasPendingRead := false },
                [Effect.notifyRead m1]) := by
            simp [step, hf, hg, hga]
          refine ⟨⟨?_, ?_⟩, fun _ => Or.inr ⟨m1, g1, g2, rfl⟩,
            fun m hm => ?_⟩
          · rw [hstep]
            simp [issuedReads, isIssueRead]
          · rw [hstep]
            simp [issuedWrites]
          · rw [hstep] at hm
            simp at hm
      · have hstep : step s (Event.onRead m1 g1 g2) =
            ({ s with hasPendingRead := false }, []) := by
          simp [step, hf, hg]
        simp [hstep, issuedReads, issuedWrites]
  | onWrite g =>
    by_cases hf : s.state = State.Finished
    · simp [step, hf, issuedReads, issuedWrites]
    · by_cases hg : SameGeneration s g = true
      · have hstep : step s (Event.onWrite g) = onWriteStep s := by
          simp [step, hf, hg]
        rcases onWriteStep_effects s with heff | ⟨m0, heff, hq⟩
        · refine ⟨⟨?_, ?_⟩, fun hr => ?_, fun m hm => ?_⟩
          · rw [hstep, heff]
            simp [issuedReads]
          · rw [hstep, heff]
            simp [issuedWrites]
          · rw [hstep, heff] at hr
            simp [issuedReads] at hr
          · rw [hstep, heff] at hm
            simp at hm
        · refine ⟨⟨?_, ?_⟩, fun hr => ?_, fun m hm => ?_⟩
          · rw [hstep, heff]
            simp [issuedReads, isIssueRead]
          · rw [hstep, heff]
            simp [issuedWrites]
          · rw [hstep, heff] at hr
            simp [issuedReads, isIssueRead] at hr
          · rw [hstep, heff] at hm
            simp at hm
            subst hm
            refine ⟨Or.inr ⟨g, rfl⟩, ?_⟩
            rw [hstep]
            exact hq
      · have hstep : step s (Event.onWrite g) = (s, []) := by
          simp [step, hf, hg]
        simp [hstep, issuedReads, issuedWrites]
  | onOperationFailed g =>
    by_cases hf : s.state = State.Finished
    · simp [step, hf, issuedReads, issuedWrites]
    · by_cases hg : SameGeneration s g = true
      · by_cases hlt : stateIdx s.state < stateIdx State.Finishing
        · have hstep : step s (Event.onOperationFailed g) =
              ({ s with state := State.Finishing, finishOpPending := true },
                [Effect.issueFinish]) := by
            simp [step, hf, hg, hlt]
          simp [hstep, issuedReads, issuedWrites, isIssueRead]
        · have hstep : step s (Event.onOperationFailed g) = (s, []) := by
            simp [step, hf, hg, hlt]
          simp [hstep, issuedReads, issuedWrites]
      · have hstep : step s (Event.onOperationFailed g) = (s, []) := by
          simp [step, hf, hg]
        simp [hstep, issuedReads, issuedWrites]
  | onFinishedByServer st g =>
    by_cases hf : s.state = State.Finished
    · simp [step, hf, issuedReads, issuedWrites]
    · by_cases hg : SameGeneration s g = true
      · by_cases hc : s.finishCalled = true
        · have hstep : step s (Event.onFinishedByServer st g) =
              ({ s with state := State.Finished, finishOpPending := false },
                []) := by
            simp [step, hf, hg, hc]
          simp [hstep, issuedReads, issuedWrites]
        · have hstep : step s (Event.onFinishedByServer st g) =
              ({ s with state := State.Finished, finishOpPending := false },
                [Effect.notifyError st]) := by
            simp [step, hf, hg, hc]
          simp [hstep, issuedReads, issuedWrites, isIssueRead]
      · have hstep : step s (Event.onFinishedByServer st g) = (s, []) := by
          simp [step, hf, hg]
        simp [hstep, issuedReads, issuedWrites]
  | onFinishedByClient =>
    by_cases hf : s.state = State.Finished
    · simp [step, hf, issuedReads, issuedWrites]
    · have hstep : step s Event.onFinishedByClient =
          ({ s with state := State.Finished, finishOpPending := false },
            []) := by
        simp [step, hf]
      simp [hstep, issuedReads, issuedWrites]

/-- Witness for C6: a second `Write` call on an open stream with a write
already in flight issues nothing; the message waits in FIFO order. -/
theorem C6_witness :
    issuedReads
          (step
            { initialState 0 with
              state := State.Open
              writeInFlight := true } (Event.callWrite [4])).2 ≤ 1 ∧
      (issuedWrites
            (step
              { initialState 0 with
                state := State.Open
                writeInFlight := true } (Event.callWrite [4])).2).length ≤
        1 :=
  (C6_single_inflight_fifo
      { initialState 0 with state := State.Open, writeInFlight := true }
      (Event.callWrite [4]) (by decide) (fun m0 => by simp)).1

/-- Claim C7: before the transport handle (`call_`) and the context
(`context_`) are destroyed, every outstanding operation has been driven to
completion — the forced-completion action precedes both destructions in
the teardown sequence whenever operations are outstanding — and the call
handle is destroyed before the context that owns its memory (per the
declaration order and comment in the header).  A caller-initiated `Finish`
establishes the zero-outstanding precondition. -/
theorem C7_teardown_safety :
    ∀ (s : StreamState),
      (¬ outstandingOps s = 0 →
        destructorSeq s =
          [TeardownStep.forceComplete, TeardownStep.destroyCall,
            TeardownStep.destroyContext]) ∧
        (outstandingOps s = 0 →
          destructorSeq s =
            [TeardownStep.destroyCall, TeardownStep.destroyContext]) ∧
        (s.finishCalled = false →
          outstandingOps (step s Event.callFinish).1 = 0) := by
  intro s
  refine ⟨fun hne => ?_, fun he => ?_, fun hfc => finish_outstanding s hfc⟩
  · have hb : (outstandingOps s == 0) = false := by
      simp [hne]
    simp [destructorSeq, hb]
  · simp [destructorSeq, he]

/-- Witness for C7 at a concrete stream with one outstanding read. -/
theorem C7_witness :
    destructorSeq
          { initialState 0 with
            state := State.Open
            hasPendingRead := true } =
        [TeardownStep.forceComplete, TeardownStep.destroyCall,
          TeardownStep.destroyContext] ∧
      outstandingOps
          (step
            { initialState 0 with
              state := State.Open
              hasPendingRead := true } Event.callFinish).1 = 0 :=
  ⟨(C7_teardown_safety
        { initialState 0 with
          state := State.Open
          hasPendingRead := true }).1 (by decide),
    (C7_teardown_safety
        { initialState 0 with
          state := State.Open
          hasPendingRead := true }).2.2 (by decide)⟩

/-- Claim C8: a write completion on a live stream never calls the
observer; on a generation mismatch it is absorbed with no state-mutating
action at all; on a match its only effect is to inform the write buffer
that the in-flight write finished, which issues the next queued write if
one exists. -/
theorem C8_onwrite_contract :
    ∀ (s : StreamState) (g : Int), ¬ s.state = State.Finished →
      ((¬ g = s.generation → step s (Event.onWrite g) = (s, [])) ∧
        (g = s.generation →
          noObserverCalls (step s (Event.onWrite g)).2 = true ∧
            (s.queue = [] →
              step s (Event.onWrite g) =
                ({ s with writeInFlight := false }, [])) ∧
            (∀ m rest, s.queue = m :: rest →
              step s (Event.onWrite g) =
                ({ s with writeInFlight := true, queue := rest },
                  [Effect.issueWrite m])))) := by
  intro s g hfin
  refine ⟨fun hne => ?_, fun heq => ?_⟩
  · have hsg : SameGeneration s g = false := by
      simp only [SameGeneration, beq_eq_false_iff_ne, ne_eq]
      exact fun h => hne h.symm
    simp [step, hfin, hsg]
  · have hsg : SameGeneration s g = true := by
      simp [SameGeneration, heq]
    have hstep : step s (Event.onWrite g) = onWriteStep s := by
      simp [step, hfin, hsg]
    refine ⟨?_, fun hq => ?_, fun m rest hq => ?_⟩
    · rw [hstep]
      exact tryIssueNextWrite_noObs _
    · rw [hstep]
      simp [onWriteStep, tryIssueNextWrite, hq]
    · rw [hstep]
      simp [onWriteStep, tryIssueNextWrite, hq]

/-- Witness for C8 at a concrete open stream with one queued write: the
completed write triggers the next queued write and no observer call. -/
theorem C8_witness :
    noObserverCalls
          (step
            { initialState 0 with
              state := State.Open
              writeInFlight := true
              queue := [[5]] } (Event.onWrite 0)).2 = true ∧
      step
          { initialState 0 with
            state := State.Open
            writeInFlight := true
            queue := [[5]] } (Event.onWrite 0) =
        ({ initialState 0 with
            state := State.Open
            writeInFlight := true
            queue := [] },
          [Effect.issueWrite [5]]) :=
  ⟨((C8_onwrite_contract
        { initialState 0 with
          state := State.Open
          writeInFlight := true
          queue := [[5]] } 0 (by decide)).2 (by decide)).1,
    ((C8_onwrite_contract
        { initialState 0 with
          state := State.Open
          writeInFlight := true
          queue := [[5]] } 0 (by decide)).2 (by decide)).2.2 [5] [] rfl⟩

/-- Claim C9: `GetResponseHeaders` is callable in every state; for every
reachable stream that has not opened it returns the empty mapping, and
once the stream has opened the metadata recorded at open is immutable —
every later step leaves it unchanged, so every later call returns the same
mapping. -/
theorem C9_response_headers :
    ∀ (s : StreamState), Reachable s →
      ((s.opened = false → GetResponseHeaders s = []) ∧
        (s.opened = true →
          ∀ e, GetResponseHeaders (step s e).1 = GetResponseHeaders s)) := by
  intro s hr
  obtain ⟨h1, h2, h3⟩ := reachable_inv s hr
  refine ⟨fun ho => h1 ho, fun ho e => ?_⟩
  have hst := h2 ho
  have hneq : ¬ s.state = State.Starting := by
    intro h
    rw [h] at hst
    exact absurd hst (by decide)
  exact step_responseHeaders_of_not_starting s e hneq

/-- Witness for C9: a freshly constructed stream is reachable, has not
opened, and reports empty response headers. -/
theorem C9_witness :
    GetResponseHeaders (initialState 0) = [] :=
  (C9_response_headers (initialState 0) (Reachable.init 0)).1 rfl

/-- Claim C10: `IsFinished` and `GetResponseHeaders` are pure observers —
the corresponding events leave the whole stream state unchanged and
produce no effect (no transport operation, no observer notification) —
and `IsFinished` returns true exactly when the state is `Finished`, hence
false for a freshly constructed stream. -/
theorem C10_pure_observers :
    ∀ (s : StreamState) (g : Int),
      step s Event.callIsFinished = (s, []) ∧
        step s Event.callGetResponseHeaders = (s, []) ∧
        (IsFinished s = true ↔ s.state = State.Finished) ∧
        IsFinished (initialState g) = false := by
  intro s g
  refine ⟨rfl, rfl, ?_, rfl⟩
  simp [IsFinished]

end ClaimTheorems

end GrpcStream
